import Mathlib

/-!
Verification development for botoform's `EnvironmentBuilder`
(source file: src/botoform/builders.py, Python 2).

The Python code is shallowly embedded as executable Lean definitions.
Machine integers do not matter here (Python's ints are unbounded); counts
that can go negative are modelled as `Int`, everything else as `Nat`.
Fallible code paths return `Except PyErr`.  Cloud-provider calls are
collaborators: their observable effects are recorded as `Event`s, and the
values they return (subnet instance counts, existing role counts, key-pair
existence) are supplied as inputs to the embedded functions, exactly as the
Python code receives them from its `EnrichedVPC` queries.
-/

namespace Botoform

/-- Python exceptions that the embedded code paths can raise.
`typeError` models `TypeError` (e.g. `int + str`, iterating `None`),
`keyError` models `KeyError` from a failed `dict` lookup,
`providerFailure` models any exception escaping a cloud-provider call. -/
inductive PyErr
  | typeError
  | keyError
  | providerFailure
deriving DecidableEq, Repr

/-- Observable effects emitted by the embedded builder code:
log emissions that drive the claims, launch calls and tag calls. -/
inductive Event
  | creatingRole (role : String)
  | warnNoSubnets (role : String)
  | launch (role subnet : String) (count : Int)
  | taggedRole (role : String)
  | tagInstance (iid name role : String)
  | tagVolume (vid name : String)
deriving DecidableEq, Repr

/-- A subnet (availability zone) as seen by `instance_role`
(src/botoform/builders.py lines 283-322).  `total` is
`collection_len(sn.instances)` (every instance in the subnet, line 298),
`roleCount` is `len(self.evpc.get_role(role_name, subnet.instances.all()))`
(only this role's instances in the subnet, line 322).  Both are collaborator
query results supplied as inputs. -/
structure SubnetInfo where
  name : String
  total : Nat
  roleCount : Nat
deriving DecidableEq, Repr, Inhabited

/-- The per-role configuration and collaborator query results consumed by
`instance_role` (src/botoform/builders.py lines 241-313):
`amiRef` is `role_data['ami']`, `count` is `role_data.get('count', 0)`,
`subnets` the resolved subnet objects of `role_data.get('subnets', [])`,
and `existingTotal` is `len(self.evpc.get_role(role_name))` - the role's
existing instances across the whole VPC (line 303). -/
structure RoleData where
  amiRef : String
  count : Nat
  subnets : List SubnetInfo
  existingTotal : Nat
deriving DecidableEq, Repr, Inhabited

/-- Stable insertion step for `sortByTotal`. -/
def insertByTotal (s : SubnetInfo) : List SubnetInfo → List SubnetInfo
  | [] => [s]
  | t :: ts => if t.total < s.total then t :: insertByTotal s ts else s :: t :: ts

/-- `sorted(subnets, key=lambda sn: collection_len(sn.instances))`
(src/botoform/builders.py lines 295-299): stable sort of the subnets by
ascending TOTAL instance count (all instances in the subnet, not just the
role's).  Python's `sorted` is stable; so is this insertion sort. -/
def sortByTotal : List SubnetInfo → List SubnetInfo
  | [] => []
  | s :: ss => insertByTotal s (sortByTotal ss)

/-- Stable insertion step for `sortByRole`. -/
def insertByRole (s : SubnetInfo) : List SubnetInfo → List SubnetInfo
  | [] => [s]
  | t :: ts => if t.roleCount < s.roleCount then t :: insertByRole s ts else s :: t :: ts

/-- Stable sort of subnets by ascending role occupancy (the ordering the
spec claims the code walks: "ascending current role-instance count").
This is NOT what the code computes; it is defined here only to state and
refute that part of claim C1 against `sortByTotal`. -/
def sortByRole : List SubnetInfo → List SubnetInfo
  | [] => []
  | s :: ss => insertByRole s (sortByRole ss)

/-- The fair-share list produced by walking `Z` zones with a starting
remainder `rem` and floor share `base`: the first `rem` zones get
`base + 1`, the rest `base`.  This mirrors the remainder bookkeeping of
src/botoform/builders.py lines 324-326 before the per-subnet subtraction. -/
def shares (base : Nat) : Nat → Nat → List Nat
  | _, 0 => []
  | rem, Nat.succ z => (base + if rem ≠ 0 then 1 else 0) :: shares base (rem - 1) z

/-- The launch loop of `instance_role` (src/botoform/builders.py lines
317-347), restricted to its pure plan computation: for each subnet in walk
order, `count = needed_per_subnet - existing_in_subnet`, plus one while the
remainder lasts (lines 323-326); a count of exactly zero skips the subnet
(lines 328-330), any other count - including a negative one - issues a
launch call with that count (lines 337-345).  The source decrements the
remainder only when it is nonzero; on `Nat`, `rem - 1 = rem` when
`rem = 0`, so the unconditional decrement below is the same function. -/
def launchLoop (base : Nat) : Nat → List SubnetInfo → List (String × Int)
  | _, [] => []
  | rem, z :: zl =>
    let c : Int := (base : Int) + (if rem ≠ 0 then 1 else 0) - (z.roleCount : Int)
    if c = 0 then launchLoop base (rem - 1) zl
    else (z.name, c) :: launchLoop base (rem - 1) zl

/-- `self.amis[role_data['ami']][self.evpc.region_name]`
(src/botoform/builders.py line 272) as a two-level association-list lookup;
`none` models the `KeyError` raised by a missing key. -/
def lookup2 (amis : List (String × List (String × String))) (ref region : String) :
    Option String :=
  match amis.find? (fun p => p.1 == ref) with
  | none => none
  | some p =>
    match p.2.find? (fun q => q.1 == region) with
    | none => none
    | some q => some q.2

/-- `EnvironmentBuilder.instance_role` (src/botoform/builders.py lines
270-350).  Returns the emitted events and either an error or the launch
plan (`none` models the Python `return None` for the no-subnets early
exit).  Faithfulness notes:
* line 271 emits `creating role: ...` first (`creatingRole`);
* line 272 is the ami double lookup - a missing key raises `KeyError`;
* lines 274-286 resolve the key pair and security groups; `get` lookups
  that cannot raise and whose results only feed the launch call, so they
  are elided;
* lines 288-293: zero subnets logs a warning and returns `None`;
* lines 305-308: when `existing_count >= desired_count` the code evaluates
  `existing_count + ' ' + desired_count` (line 307), an `int + str`
  addition that raises `TypeError` before the `return None` is reached;
* lines 310-347: floor division (Python 2 `/` on ints), remainder, and the
  launch loop (`launchLoop`) over the subnets sorted by `sortByTotal`. -/
def instance_role (amis : List (String × List (String × String))) (region : String)
    (role_name : String) (role_data : RoleData) (desired_count : Nat) :
    List Event × Except PyErr (Option (List (String × Int))) :=
  match lookup2 amis role_data.amiRef region with
  | none => ([Event.creatingRole role_name], .error .keyError)
  | some _ =>
    if role_data.subnets.length = 0 then
      ([Event.creatingRole role_name, Event.warnNoSubnets role_name], .ok none)
    else
      if desired_count ≤ role_data.existingTotal then
        ([Event.creatingRole role_name], .error .typeError)
      else
        let sorted := sortByTotal role_data.subnets
        let needed := desired_count - role_data.existingTotal
        let base := needed / sorted.length
        let rem := needed % sorted.length
        let launches := launchLoop base rem sorted
        (Event.creatingRole role_name :: launches.map (fun q => Event.launch role_name q.1 q.2),
         .ok (some launches))

/-- First loop of `EnvironmentBuilder.instance_roles`
(src/botoform/builders.py lines 242-253): reconcile each role in turn,
collecting `roles[role_name] = role_instances`.  An exception from
`instance_role` propagates immediately (there is no per-role handler). -/
def rolesLoop1 (amis : List (String × List (String × String))) (region : String) :
    List (String × RoleData) →
    List Event × Except PyErr (List (String × Option (List (String × Int))))
  | [] => ([], .ok [])
  | (name, data) :: rest =>
    let r := instance_role amis region name data data.count
    match r.2 with
    | .error e => (r.1, .error e)
    | .ok res =>
      let r2 := rolesLoop1 amis region rest
      match r2.2 with
      | .error e => (r.1 ++ r2.1, .error e)
      | .ok acc => (r.1 ++ r2.1, .ok ((name, res) :: acc))

/-- Second loop of `instance_roles` (src/botoform/builders.py lines
255-257): `self.tag_instances(role_name, role_instances)` for every stored
role.  When a role was skipped, `role_instances` is `None`, and
`tag_instances` immediately iterates it (`for instance in instances:`,
line 360), raising `TypeError: NoneType is not iterable`.  For a real
instance list, the per-instance tagging succeeds (its detailed effects are
modelled by `tag_instances` below); here it is recorded as a single
`taggedRole` event. -/
def rolesLoop2 : List (String × Option (List (String × Int))) →
    List Event × Except PyErr Unit
  | [] => ([], .ok ())
  | (_, none) :: _ => ([], .error .typeError)
  | (name, some _) :: rest =>
    let r := rolesLoop2 rest
    (Event.taggedRole name :: r.1, r.2)

/-- `EnvironmentBuilder.instance_roles` (src/botoform/builders.py lines
241-268): loop 1 reconciles and launches every role, loop 2 tags the
collected instances.  The trailing EIP loop (lines 259-268) has no bearing
on any claim and runs after everything modelled here, so it is elided.
Python-2 dict iteration order is modelled by the configuration list
order. -/
def instance_roles (amis : List (String × List (String × String))) (region : String)
    (cfg : List (String × RoleData)) : List Event × Except PyErr Unit :=
  let l1 := rolesLoop1 amis region cfg
  match l1.2 with
  | .error e => (l1.1, .error e)
  | .ok roles =>
    let l2 := rolesLoop2 roles
    (l1.1 ++ l2.1, l2.2)

/-- `EnvironmentBuilder.key_pairs` (src/botoform/builders.py lines
234-239).  `key_pair_cfg.append('default')` mutates the caller's config
list in place; the post-mutation list is returned as the first component.
`existing` is the set (as a list) of key-pair names the provider already
has; each name of the appended list that is missing is created. -/
def key_pairs (key_pair_cfg : List String) (existing : List String) :
    List String × List String :=
  let cfg := key_pair_cfg ++ ["default"]
  (cfg, cfg.foldl (fun st n => if st.contains n then st else st ++ [n]) existing)

/-- Python's `str.lstrip(chars)` on an explicit character list: remove the
longest leading run of characters that are members of `chars` (a character
SET, not a literal prefix). -/
def pyLstrip (chars : List Char) : List Char → List Char
  | [] => []
  | c :: cs => if c ∈ chars then pyLstrip chars cs else c :: cs

/-- `instance.id.lstrip('i-')` (src/botoform/builders.py line 361):
strips every leading `i` and `-`, not just one literal `i-`. -/
def stripId (s : String) : String := ⟨pyLstrip ['i', '-'] s.data⟩

/-- An instance as consumed by `tag_instances`: its id and the ids of its
attached volumes (`instance.volumes.all()`). -/
structure InstanceInfo where
  iid : String
  volumes : List String
deriving DecidableEq, Repr

/-- `EnvironmentBuilder.tag_instances` (src/botoform/builders.py lines
352-368): for each instance, `hostname = vpc_name + '-' + role_name + '-' +
instance.id.lstrip('i-')`; the instance gets tags `Name = hostname` and
`role = role_name`, and every attached volume gets `Name = hostname`. -/
def tag_instances (vpcName roleName : String) : List InstanceInfo → List Event
  | [] => []
  | inst :: rest =>
    let hostname := vpcName ++ "-" ++ roleName ++ "-" ++ stripId inst.iid
    (Event.tagInstance inst.iid hostname roleName ::
      inst.volumes.map (fun v => Event.tagVolume v hostname)) ++
    tag_instances vpcName roleName rest

/-! ## The `_apply_all` pipeline (src/botoform/builders.py lines 35-77)

The ten pipeline stages, in source order.  Each stage's cloud-provider
calls either all succeed or raise; that collaborator behaviour is an input
`env : Stage → Except PyErr Unit`. -/

/-- The pipeline stages of `_apply_all`, one per method call
(src/botoform/builders.py lines 59-77). -/
inductive Stage
  | routeTables
  | subnetsStage
  | associations
  | endpoints
  | keyPairsStage
  | securityGroups
  | instanceRolesStage
  | securityGroupRules
  | waitRunning
  | lockInstances
deriving DecidableEq, Repr

/-- The nine abortable stages, in the order `_apply_all` invokes them
(src/botoform/builders.py lines 59-70). -/
def mainStages : List Stage :=
  [.routeTables, .subnetsStage, .associations, .endpoints, .keyPairsStage,
   .securityGroups, .instanceRolesStage, .securityGroupRules, .waitRunning]

/-- The full pipeline order, ending with the best-effort instance lock
(src/botoform/builders.py lines 72-76). -/
def pipelineOrder : List Stage := mainStages ++ [Stage.lockInstances]

/-- Run a stage list in order, stopping at the first exception; the
trace records the stages that started. -/
def runSeq (env : Stage → Except PyErr Unit) : List Stage → List Stage × Except PyErr Unit
  | [] => ([], .ok ())
  | s :: rest =>
    match env s with
    | .error e => ([s], .error e)
    | .ok _ =>
      let r := runSeq env rest
      (s :: r.1, r.2)

/-- Decidable equality for `Except`, needed to evaluate concrete build
results with `decide`. -/
instance {ε α : Type} [DecidableEq ε] [DecidableEq α] : DecidableEq (Except ε α) := fun a b =>
  match a, b with
  | .ok x, .ok y =>
    if h : x = y then isTrue (by rw [h]) else isFalse (fun hc => h (by cases hc; rfl))
  | .ok _, .error _ => isFalse (fun hc => by cases hc)
  | .error _, .ok _ => isFalse (fun hc => by cases hc)
  | .error e, .error f =>
    if h : e = f then isTrue (by rw [h]) else isFalse (fun hc => h (by cases hc; rfl))

/-- The outcome of one `apply_all` invocation. -/
structure BuildResult where
  trace : List Stage
  logs : List String
  terminated : Bool
  result : Except PyErr Unit
deriving DecidableEq, Repr

/-- `EnvironmentBuilder.apply_all` together with `_apply_all`
(src/botoform/builders.py lines 35-77).  The nine main stages run in
order and the first exception aborts the rest; `lock_instances` (lines
72-76) is wrapped in a bare `except:` that logs a warning and continues,
so its exception never escapes.  On failure, `apply_all` (lines 35-45)
logs the failure banner, the reason, the traceback at debug level and the
teardown announcement, does NOT tear down (line 44 `#self.evpc.terminate()`
is commented out, hence `terminated := false`), and re-raises. -/
def apply_all (env : Stage → Except PyErr Unit) : BuildResult :=
  match runSeq env mainStages with
  | (tr, .error e) =>
    { trace := tr
      logs := ["Botoform failed to build environment!", "Failure reason",
               "traceback (debug)", "Tearing down failed environment!"]
      terminated := false
      result := .error e }
  | (tr, .ok _) =>
    { trace := tr ++ [Stage.lockInstances]
      logs := match env Stage.lockInstances with
              | .error _ => ["could not lock instances, continuing"]
              | .ok _ => []
      terminated := false
      result := .ok () }

/-! ## The subnet address-space allocator

`from botoform.subnetallocator import allocate` (src/botoform/builders.py
line 15, used at line 135).  The module `botoform/subnetallocator.py` is
not part of the provided sources, so the allocator is modelled from the
spec (section 4.1). -/

/-- Modelled from the spec: an `AddressBlock` of `botoform.subnetallocator`
(module missing from src/) - "a network prefix (base address + prefix
length / mask)", here base address plus capacity in addresses. -/
structure AddressBlock where
  base : Nat
  size : Nat
deriving DecidableEq, Repr, Inhabited

/-- Modelled from the spec: the failure mode of `allocate` in
`botoform.subnetallocator` (module missing from src/). -/
inductive AllocError
  | capacityExceeded
deriving DecidableEq, Repr

/-- Two blocks occupy disjoint address ranges. -/
def blocksDisjoint (b1 b2 : AddressBlock) : Prop :=
  b1.base + b1.size ≤ b2.base ∨ b2.base + b2.size ≤ b1.base

/-- `b` lies fully inside `p`. -/
def containedIn (b p : AddressBlock) : Prop :=
  p.base ≤ b.base ∧ b.base + b.size ≤ p.base + p.size

instance (b1 b2 : AddressBlock) : Decidable (blocksDisjoint b1 b2) := by
  unfold blocksDisjoint; infer_instance

instance (b p : AddressBlock) : Decidable (containedIn b p) := by
  unfold containedIn; infer_instance

/-- Tag each size with its original request position (spec 4.1 step 2:
"retaining a back-reference to original position"). -/
def enumerate : Nat → List Nat → List (Nat × Nat)
  | _, [] => []
  | i, s :: ss => (i, s) :: enumerate (i + 1) ss

/-- Stable insertion step for `sortSizesDesc`: an already-placed request
stays in front only when its size is strictly larger. -/
def insDesc (p : Nat × Nat) : List (Nat × Nat) → List (Nat × Nat)
  | [] => [p]
  | q :: qs => if p.2 < q.2 then q :: insDesc p qs else p :: q :: qs

/-- Modelled from the spec: step 2 of `allocate` in
`botoform.subnetallocator` (module missing from src/) - "sort requests by
decreasing size ... stable tie-break: original order among equal sizes". -/
def sortSizesDesc : List (Nat × Nat) → List (Nat × Nat)
  | [] => []
  | p :: ps => insDesc p (sortSizesDesc ps)

/-- Modelled from the spec: the alignment rule of step 3 - "round the
cursor up to the next address aligned to that size's boundary (a block of
capacity C must start at an address that is a multiple of C)". -/
def align (cursor s : Nat) : Nat := ((cursor + s - 1) / s) * s

/-- Modelled from the spec: steps 3-4 of `allocate` in
`botoform.subnetallocator` (module missing from src/) - cursor walk over
the sorted requests: align the cursor, assign `[cursor, cursor + C)`,
advance; fail with `CapacityExceeded` if an assigned block would end past
the parent's end `pend`. -/
def assignBlocks (pend : Nat) : Nat → List (Nat × Nat) → Except AllocError (List (Nat × AddressBlock))
  | _, [] => .ok []
  | cursor, (i, s) :: rest =>
    let start := align cursor s
    if pend < start + s then .error .capacityExceeded
    else
      match assignBlocks pend (start + s) rest with
      | .error e => .error e
      | .ok tl => .ok ((i, ⟨start, s⟩) :: tl)

/-- Modelled from the spec: `allocate(parent, sizes)` of
`botoform.subnetallocator` (module missing from src/), spec section 4.1:
reject when the total requested capacity exceeds the parent's (step 1),
sort decreasing with original positions (step 2), cursor-walk with
alignment (steps 3-4), and re-order the assigned blocks back to the
original request order (step 5, realised by looking each original position
up among the assigned blocks). -/
def allocate (parent : AddressBlock) (sizes : List Nat) : Except AllocError (List AddressBlock) :=
  if parent.size < sizes.sum then .error .capacityExceeded
  else
    match assignBlocks (parent.base + parent.size) parent.base (sortSizesDesc (enumerate 0 sizes)) with
    | .error e => .error e
    | .ok assigned =>
      .ok ((enumerate 0 sizes).map (fun p =>
        (((assigned.find? (fun q => q.1 == p.1)).map (fun q => q.2)).getD default)))

/-- The cursor walk when no alignment padding is ever needed: blocks are
assigned back to back from `c`.  Used to characterise `assignBlocks` under
the power-of-two hypotheses. -/
def consecutive : Nat → List (Nat × Nat) → List (Nat × AddressBlock)
  | _, [] => []
  | c, (i, s) :: rest => (i, ⟨c, s⟩) :: consecutive (c + s) rest

/-- Concrete ami table used by the witness and counterexample inputs. -/
def amisStd : List (String × List (String × String)) :=
  [("ubuntu", [("us-east-1", "ami-123")])]

/-- Claim C1, per-input form as written: the per-zone fair shares
(`base + 1` for the first `remainder` zones, `base` for the rest) are
assigned to the zones walked "in ascending order of current occupancy"
(role-instance count, `sortByRole`).  The code walks `sortByTotal` (total
instance count); this predicate says the two per-zone share assignments
agree at the given input. -/
abbrev C1ClaimAt (zs : List SubnetInfo) (D E : Nat) : Prop :=
  ∀ z ∈ zs,
    (((sortByTotal zs).zip (shares ((D - E) / zs.length) ((D - E) % zs.length) zs.length)).map
      (fun q => (q.1.name, q.2))).lookup z.name
    = (((sortByRole zs).zip (shares ((D - E) / zs.length) ((D - E) % zs.length) zs.length)).map
      (fun q => (q.1.name, q.2))).lookup z.name

/-- C1, amended content: walking the zones in the code's order
(ascending TOTAL instance count, `sortByTotal`), the fair-share list
`shares base rem Z` with `base = (D-E)/Z`, `rem = (D-E)%Z` has sum
`D - E`, exactly `rem = (D-E)%Z` zones receive `base + 1`, position `p`
receives `base + 1` iff `p < rem`, and the launch loop issues
`share - roleCount` for each walked zone unless that count is 0. -/
def C1Statement (zs : List SubnetInfo) (D E : Nat) : Prop :=
  (shares ((D - E) / zs.length) ((D - E) % zs.length) zs.length).sum = D - E ∧
  (shares ((D - E) / zs.length) ((D - E) % zs.length) zs.length).count
      ((D - E) / zs.length + 1) = (D - E) % zs.length ∧
  (∀ p, p < zs.length →
    (shares ((D - E) / zs.length) ((D - E) % zs.length) zs.length).getD p 0
      = (D - E) / zs.length + if p < (D - E) % zs.length then 1 else 0) ∧
  (sortByTotal zs).length = zs.length ∧
  launchLoop ((D - E) / zs.length) ((D - E) % zs.length) (sortByTotal zs) =
    ((sortByTotal zs).zip (shares ((D - E) / zs.length) ((D - E) % zs.length) zs.length)).filterMap
      (fun q => if ((q.2 : Int) - (q.1.roleCount : Int)) = 0 then none
                else some (q.1.name, (q.2 : Int) - (q.1.roleCount : Int)))

/-- The count of a launch event, `none` for other events. -/
def launchCount : Event → Option Int
  | .launch _ _ c => some c
  | _ => none

/-- Claim C3, per-input form as written: every launch call issued by the
reconciliation carries a strictly positive count (non-positive computed
counts are clamped/skipped). -/
abbrev C3ClaimAt (events : List Event) : Prop :=
  ∀ c ∈ events.filterMap launchCount, 0 < c

/-- The four failure log messages of `apply_all`
(src/botoform/builders.py lines 40-43). -/
def failLogs : List String :=
  ["Botoform failed to build environment!", "Failure reason",
   "traceback (debug)", "Tearing down failed environment!"]

/-- The collaborator environment in which only the instance-lock call
raises (src/botoform/builders.py line 74). -/
def envLockFails : Stage → Except PyErr Unit := fun s =>
  match s with
  | .lockInstances => .error .providerFailure
  | _ => .ok ()

/-- The collaborator environment in which the subnet stage raises. -/
def envSubnetFails : Stage → Except PyErr Unit := fun s =>
  match s with
  | .subnetsStage => .error .providerFailure
  | _ => .ok ()

/-- The two dependency-ordering facts of claim C8: security-group rules
are only ever applied after the security-group stage, and route-table
associations only after the subnet stage. -/
abbrev stageOrderOk (t : List Stage) : Prop :=
  (Stage.securityGroupRules ∈ t → Stage.securityGroups ∈ t ∧
    t.indexOf Stage.securityGroups < t.indexOf Stage.securityGroupRules) ∧
  (Stage.associations ∈ t → Stage.subnetsStage ∈ t ∧
    t.indexOf Stage.subnetsStage < t.indexOf Stage.associations)

/-- The blocks produced by the cursor walk over the sorted requests, with
their original request positions, under the conditions of claim C5 (all
sizes powers of two, aligned parent): the walk degenerates to back-to-back
assignment from the parent's base. -/
def allocAssigned (parent : AddressBlock) (sizes : List Nat) : List (Nat × AddressBlock) :=
  consecutive parent.base (sortSizesDesc (enumerate 0 sizes))

/-- The output of `allocate` (step 5): the assigned blocks looked up by
original request position. -/
def allocOut (parent : AddressBlock) (sizes : List Nat) : List AddressBlock :=
  (enumerate 0 sizes).map (fun p =>
    (((allocAssigned parent sizes).find? (fun q => q.1 == p.1)).map (fun q => q.2)).getD default)

/-- The conclusion of claim C5: `allocate` succeeds with one block per
request, the block at each position has exactly the requested size,
blocks at distinct positions are disjoint, and every block lies inside
the parent. -/
def C5Statement (parent : AddressBlock) (sizes : List Nat) : Prop :=
  ∃ out, allocate parent sizes = .ok out ∧
    out.length = sizes.length ∧
    (∀ p, p < sizes.length → (out.getD p default).size = sizes.getD p 0) ∧
    (∀ p q, p < sizes.length → q < sizes.length → p ≠ q →
      blocksDisjoint (out.getD p default) (out.getD q default)) ∧
    (∀ b ∈ out, containedIn b parent)

/-! ## Helper lemmas: the fair-share distribution of `instance_role` -/

theorem shares_length (base : Nat) : ∀ rem Z, (shares base rem Z).length = Z := by
  intro rem Z
  induction Z generalizing rem with
  | zero => rfl
  | succ z ih => simp [shares, ih]

theorem shares_getD (base : Nat) :
    ∀ Z rem p, p < Z → (shares base rem Z).getD p 0 = base + if p < rem then 1 else 0 := by
  intro Z
  induction Z with
  | zero => intro rem p h; exact absurd h (Nat.not_lt_zero _)
  | succ z ih =>
    intro rem p h
    cases p with
    | zero =>
      simp only [shares, List.getD_cons_zero]
      by_cases h0 : rem = 0
      · simp [h0]
      · rw [if_pos h0, if_pos (Nat.pos_of_ne_zero h0)]
    | succ p =>
      simp only [shares, List.getD_cons_succ]
      rw [ih (rem - 1) p (by omega)]
      by_cases hc : p + 1 < rem
      · rw [if_pos (by omega), if_pos hc]
      · rw [if_neg (by omega), if_neg hc]

theorem shares_sum (base : Nat) : ∀ Z rem, (shares base rem Z).sum = Z * base + min rem Z := by
  intro Z
  induction Z with
  | zero => intro rem; simp [shares]
  | succ z ih =>
    intro rem
    simp only [shares, List.sum_cons, ih (rem - 1)]
    rw [Nat.succ_mul]
    by_cases h0 : rem = 0
    · subst h0
      simp [Nat.add_comm]
    · rw [if_pos h0]
      have := Nat.pos_of_ne_zero h0
      generalize z * base = t
      omega

theorem shares_count (base : Nat) :
    ∀ Z rem, (shares base rem Z).count (base + 1) = min rem Z := by
  intro Z
  induction Z with
  | zero => intro rem; simp [shares]
  | succ z ih =>
    intro rem
    simp only [shares, List.count_cons, ih (rem - 1)]
    by_cases h0 : rem = 0
    · subst h0; simp
    · rw [if_pos h0]
      have hbeq : ((base + 1 == base + 1) : Bool) = true := by simp
      simp only [hbeq, if_true]
      have := Nat.pos_of_ne_zero h0
      omega

theorem insertByTotal_perm (s : SubnetInfo) : ∀ l, (insertByTotal s l).Perm (s :: l) := by
  intro l
  induction l with
  | nil => exact List.Perm.refl _
  | cons t ts ih =>
    simp only [insertByTotal]
    by_cases h : t.total < s.total
    · rw [if_pos h]
      exact (ih.cons t).trans (List.Perm.swap s t ts)
    · rw [if_neg h]

theorem sortByTotal_perm : ∀ l, (sortByTotal l).Perm l := by
  intro l
  induction l with
  | nil => exact List.Perm.refl _
  | cons s ss ih =>
    exact (insertByTotal_perm s (sortByTotal ss)).trans (ih.cons s)

theorem sortByTotal_length (l : List SubnetInfo) : (sortByTotal l).length = l.length :=
  (sortByTotal_perm l).length_eq

/-- Closed form of the launch loop: walking the zone list `l` with starting
remainder `rem`, the zone at position `p` is paired with fair share
`base + 1` when `p < rem` and `base` otherwise (the `shares` list), and a
launch of `share - roleCount` is issued unless that count is exactly 0. -/
theorem launchLoop_eq (base : Nat) :
    ∀ (l : List SubnetInfo) (rem : Nat),
      launchLoop base rem l =
        (l.zip (shares base rem l.length)).filterMap
          (fun q => if ((q.2 : Int) - (q.1.roleCount : Int)) = 0 then none
                    else some (q.1.name, (q.2 : Int) - (q.1.roleCount : Int))) := by
  intro l
  induction l with
  | nil => intro rem; rfl
  | cons z zl ih =>
    intro rem
    have hcast : ((base + if rem ≠ 0 then 1 else 0 : Nat) : Int)
        = (base : Int) + (if rem ≠ 0 then 1 else 0 : Int) := by
      by_cases h0 : rem = 0 <;> simp [h0]
    simp only [launchLoop, List.length_cons, shares, List.zip_cons_cons, List.filterMap_cons]
    rw [← ih (rem - 1)]
    by_cases h0 : rem = 0
    · simp only [h0, ne_eq, not_true_eq_false, if_false, Nat.add_zero, add_zero]
      by_cases hc : (base : Int) - (z.roleCount : Int) = 0 <;> simp [hc]
    · simp only [ne_eq, h0, not_false_eq_true, if_true, Nat.cast_add, Nat.cast_one]
      by_cases hc : (base : Int) + 1 - (z.roleCount : Int) = 0 <;> simp [hc]

/-- Elements of a deeper launch loop stay in the loop one zone earlier. -/
theorem launchLoop_tail_mem (base rem : Nat) (z : SubnetInfo) (zl : List SubnetInfo)
    (x : String × Int) (h : x ∈ launchLoop base (rem - 1) zl) :
    x ∈ launchLoop base rem (z :: zl) := by
  simp only [launchLoop]
  by_cases hc : (base : Int) + (if rem ≠ 0 then 1 else 0) - (z.roleCount : Int) = 0
  · rwa [if_pos hc]
  · rw [if_neg hc]; exact List.mem_cons_of_mem _ h

/-! ## Claims C1-C3: the per-zone distribution of `instance_role` -/

/-- C1, counterexample: with zones A (0 instances total, 1 of the role)
and B (5 instances total, 0 of the role), desired 2, existing 1, the code
walks A first (fewest TOTAL instances) and hands it the `base + 1` share,
while ascending role occupancy would walk B first; the per-zone share
assignments differ, so the walk is not "in ascending order of current
occupancy" as the claim states. -/
theorem C1_counterexample :
    ¬ C1ClaimAt [⟨"A", 0, 1⟩, ⟨"B", 5, 0⟩] 2 1 := by decide

/-- C1 (corrected): for desired `D`, existing total `E` with `D > E` and
`Z ≥ 1` zones, `instance_role` computes `base = (D-E) div Z` and
`remainder = (D-E) mod Z`; walking the zones in ascending order of TOTAL
instance count (not role occupancy - see `C1_counterexample`), the first
`remainder` zones get `base + 1` and the rest `base`, the planned per-zone
counts before the existing-in-zone subtraction sum to `D - E`, and exactly
`(D-E) mod Z` zones (hence at most that many) receive one more than the
floor share. -/
theorem instance_role_distribution (zs : List SubnetInfo) (D E : Nat)
    (hZ : 0 < zs.length) (_hDE : E < D) : C1Statement zs D E := by
  have hmod : (D - E) % zs.length < zs.length := Nat.mod_lt _ hZ
  have hmin : min ((D - E) % zs.length) zs.length = (D - E) % zs.length :=
    Nat.min_eq_left (Nat.le_of_lt hmod)
  refine ⟨?_, ?_, ?_, sortByTotal_length zs, ?_⟩
  · rw [shares_sum, hmin]
    have hdm := Nat.div_add_mod (D - E) zs.length
    have := Nat.mul_comm ((D - E) / zs.length) zs.length
    omega
  · rw [shares_count, hmin]
  · intro p hp
    exact shares_getD _ zs.length _ p hp
  · rw [launchLoop_eq, sortByTotal_length]

/-- C1 witness: 3 zones, desired 5, existing 1: base 1, remainder 1. -/
theorem instance_role_distribution_witness :
    0 < ([⟨"A", 0, 0⟩, ⟨"B", 1, 1⟩, ⟨"C", 1, 1⟩] : List SubnetInfo).length ∧ 1 < 5 ∧
    C1Statement [⟨"A", 0, 0⟩, ⟨"B", 1, 1⟩, ⟨"C", 1, 1⟩] 5 1 :=
  ⟨by decide, by decide,
   instance_role_distribution [⟨"A", 0, 0⟩, ⟨"B", 1, 1⟩, ⟨"C", 1, 1⟩] 5 1 (by decide) (by decide)⟩

/-- C2 (code bug): whenever the role's existing total reaches the desired
count, `instance_role` does not return the all-zero no-op plan: line 307
(`self.log.emit(existing_count + ' ' + desired_count, 'debug')`) adds an
`int` to a `str`, raising `TypeError`, so the scale-down branch always
raises instead of no-opping. -/
theorem instance_role_scale_down (amis : List (String × List (String × String)))
    (region name : String) (data : RoleData) (D : Nat) (a : String)
    (hami : lookup2 amis data.amiRef region = some a)
    (hsub : data.subnets.length ≠ 0)
    (hE : D ≤ data.existingTotal) :
    instance_role amis region name data D = ([Event.creatingRole name], .error .typeError) := by
  simp [instance_role, hami, hsub, hE]

/-- C2 witness: desired 2, existing 3 - the code raises `TypeError`. -/
theorem instance_role_scale_down_witness :
    lookup2 amisStd "ubuntu" "us-east-1" = some "ami-123" ∧
    (([⟨"A", 3, 3⟩] : List SubnetInfo).length ≠ 0) ∧ 2 ≤ 3 ∧
    instance_role amisStd "us-east-1" "web" ⟨"ubuntu", 2, [⟨"A", 3, 3⟩], 3⟩ 2
      = ([Event.creatingRole "web"], .error .typeError) :=
  ⟨by decide, by decide, by decide,
   instance_role_scale_down amisStd "us-east-1" "web" ⟨"ubuntu", 2, [⟨"A", 3, 3⟩], 3⟩ 2 "ami-123"
     (by decide) (by decide) (by decide)⟩

/-- C3, counterexample: zones A (3 instances, all of the role) and B
(empty), desired 4, existing 3.  The walk order is B, A; B gets
`base + 1 - 0 = 1`, A gets `base - 3 = -3`, and since only `count == 0`
is skipped (line 328), the code issues a launch call with count `-3`:
negative counts are NOT clamped to zero. -/
theorem C3_counterexample :
    instance_role amisStd "us-east-1" "web" ⟨"ubuntu", 4, [⟨"A", 3, 3⟩, ⟨"B", 0, 0⟩], 3⟩ 4
      = ([Event.creatingRole "web", Event.launch "web" "B" 1, Event.launch "web" "A" (-3)],
         .ok (some [("B", 1), ("A", -3)])) ∧
    ¬ C3ClaimAt (instance_role amisStd "us-east-1" "web"
        ⟨"ubuntu", 4, [⟨"A", 3, 3⟩, ⟨"B", 0, 0⟩], 3⟩ 4).1 :=
  ⟨by decide, by decide⟩

/-- C3 (corrected): in the launch loop of `instance_role`, a zone whose
computed count is exactly zero is skipped (no launch entry), but that is
the only clamping: every zone whose computed count is nonzero - including
a NEGATIVE count - produces a launch entry with exactly that count. -/
theorem launchLoop_zero_skip_only (base rem : Nat) (l : List SubnetInfo) :
    (∀ q ∈ launchLoop base rem l, q.2 ≠ 0) ∧
    (∀ p, p < l.length →
      (base : Int) + (if p < rem then 1 else 0) - ((l.getD p default).roleCount : Int) ≠ 0 →
      ((l.getD p default).name,
        (base : Int) + (if p < rem then 1 else 0) - ((l.getD p default).roleCount : Int))
        ∈ launchLoop base rem l) := by
  constructor
  · intro q hq
    induction l generalizing rem with
    | nil => simp [launchLoop] at hq
    | cons z zl ih =>
      simp only [launchLoop] at hq
      by_cases hc : (base : Int) + (if rem ≠ 0 then 1 else 0) - (z.roleCount : Int) = 0
      · rw [if_pos hc] at hq
        exact ih (rem - 1) hq
      · rw [if_neg hc] at hq
        rcases List.mem_cons.mp hq with h | h
        · rw [h]; exact hc
        · exact ih (rem - 1) h
  · intro p hp hne
    induction l generalizing rem p with
    | nil => exact absurd hp (Nat.not_lt_zero _)
    | cons z zl ih =>
      cases p with
      | zero =>
        simp only [List.getD_cons_zero] at hne ⊢
        have hiff : (if (0 : Nat) < rem then (1 : Int) else 0) = if rem ≠ 0 then 1 else 0 := by
          by_cases h0 : rem = 0 <;> simp [h0]
        rw [hiff] at hne ⊢
        simp only [launchLoop, if_neg hne]
        exact List.mem_cons_self _ _
      | succ p =>
        simp only [List.getD_cons_succ] at hne ⊢
        have hiff : (if p + 1 < rem then (1 : Int) else 0) = if p < rem - 1 then 1 else 0 := by
          by_cases hc : p + 1 < rem
          · rw [if_pos hc, if_pos (by omega)]
          · rw [if_neg hc, if_neg (by omega)]
        rw [hiff] at hne ⊢
        exact launchLoop_tail_mem base rem z zl _
          (ih (rem - 1) p (Nat.lt_of_succ_lt_succ hp) hne)

/-- C3 witness: zone with 5 role instances at position 0, base 2, rem 0:
the computed count `2 - 5 = -3` is nonzero, so a launch entry with the
negative count is produced. -/
theorem launchLoop_zero_skip_only_witness :
    (∀ q ∈ launchLoop 2 0 [⟨"A", 5, 5⟩], q.2 ≠ 0) ∧
    (("A", (-3 : Int)) ∈ launchLoop 2 0 [⟨"A", 5, 5⟩]) :=
  ⟨(launchLoop_zero_skip_only 2 0 [⟨"A", 5, 5⟩]).1,
   by
    have h := (launchLoop_zero_skip_only 2 0 [⟨"A", 5, 5⟩]).2 0 (by decide) (by decide)
    simpa using h⟩

/-! ## Claims C4 and C6: per-role failure handling in `instance_roles` -/

/-- C4 (code bug): role `a` has no subnets, role `b` is healthy.  The
no-subnet failure is reported (`warnNoSubnets`) and role `a`'s launches
are skipped, and role `b` is still reconciled and launched - but the
build then aborts with `TypeError` in the tagging loop (it stores `None`
for role `a` and `tag_instances` iterates it, line 360), so role `b` is
never tagged: the build does NOT continue past the skipped role. -/
theorem instance_roles_skip_crash :
    instance_roles amisStd "us-east-1"
        [("a", ⟨"ubuntu", 1, [], 0⟩), ("b", ⟨"ubuntu", 1, [⟨"sb", 0, 0⟩], 0⟩)]
      = ([Event.creatingRole "a", Event.warnNoSubnets "a",
          Event.creatingRole "b", Event.launch "b" "sb" 1], .error .typeError) ∧
    Event.launch "b" "sb" 1 ∈ (instance_roles amisStd "us-east-1"
        [("a", ⟨"ubuntu", 1, [], 0⟩), ("b", ⟨"ubuntu", 1, [⟨"sb", 0, 0⟩], 0⟩)]).1 ∧
    Event.taggedRole "b" ∉ (instance_roles amisStd "us-east-1"
        [("a", ⟨"ubuntu", 1, [], 0⟩), ("b", ⟨"ubuntu", 1, [⟨"sb", 0, 0⟩], 0⟩)]).1 :=
  ⟨by decide, by decide, by decide⟩

/-- C6, counterexample: role `a` references image `missing`, which has no
entry in the ami table; role `b` is healthy and listed after `a`.  The
lookup raises `KeyError`, which propagates out of `instance_roles`
unhandled: no warning is reported, role `b` is never reconciled or
launched, and the whole build aborts - the role is not "skipped". -/
theorem C6_counterexample :
    instance_roles amisStd "us-east-1"
        [("a", ⟨"missing", 1, [⟨"sa", 0, 0⟩], 0⟩), ("b", ⟨"ubuntu", 1, [⟨"sb", 0, 0⟩], 0⟩)]
      = ([Event.creatingRole "a"], .error .keyError) ∧
    Event.creatingRole "b" ∉ (instance_roles amisStd "us-east-1"
        [("a", ⟨"missing", 1, [⟨"sa", 0, 0⟩], 0⟩), ("b", ⟨"ubuntu", 1, [⟨"sb", 0, 0⟩], 0⟩)]).1 :=
  ⟨by decide, by decide⟩

/-- C6 (corrected): when a role's image reference has no entry for the
target region, `instance_role` raises `KeyError` (line 272) and
`instance_roles` has no per-role handler, so the error propagates at once:
the failing role is not merely skipped and no later role is processed. -/
theorem instance_roles_ami_abort (amis : List (String × List (String × String)))
    (region name : String) (data : RoleData) (rest : List (String × RoleData))
    (hami : lookup2 amis data.amiRef region = none) :
    instance_roles amis region ((name, data) :: rest)
      = ([Event.creatingRole name], .error .keyError) := by
  simp [instance_roles, rolesLoop1, instance_role, hami]

/-- C6 witness: the concrete configuration of `C6_counterexample`. -/
theorem instance_roles_ami_abort_witness :
    lookup2 amisStd "missing" "us-east-1" = none ∧
    instance_roles amisStd "us-east-1"
        [("a", ⟨"missing", 1, [⟨"sa", 0, 0⟩], 0⟩), ("c", ⟨"ubuntu", 1, [⟨"sc", 0, 0⟩], 0⟩)]
      = ([Event.creatingRole "a"], .error .keyError) :=
  ⟨by decide,
   instance_roles_ami_abort amisStd "us-east-1" "a" ⟨"missing", 1, [⟨"sa", 0, 0⟩], 0⟩
     [("c", ⟨"ubuntu", 1, [⟨"sc", 0, 0⟩], 0⟩)] (by decide)⟩

/-! ## Claim C9: `key_pairs` always ensures a `default` key pair -/

/-- The ensure-fold of `key_pairs` keeps every name already present. -/
theorem keyPairsFold_preserves (l : List String) :
    ∀ (st : List String) (m : String), m ∈ st →
      m ∈ l.foldl (fun st n => if st.contains n then st else st ++ [n]) st := by
  induction l with
  | nil => intro st m hm; exact hm
  | cons a l ih =>
    intro st m hm
    simp only [List.foldl_cons]
    by_cases h : st.contains a
    · rw [if_pos h]; exact ih st m hm
    · rw [if_neg h]
      exact ih (st ++ [a]) m (List.mem_append_left _ hm)

/-- Every name of the walked list ends up present. -/
theorem keyPairsFold_mem (l : List String) :
    ∀ (st : List String) (n : String), n ∈ l →
      n ∈ l.foldl (fun st n => if st.contains n then st else st ++ [n]) st := by
  induction l with
  | nil => intro st n hn; cases hn
  | cons a l ih =>
    intro st n hn
    simp only [List.foldl_cons]
    rcases List.mem_cons.mp hn with rfl | hn
    · by_cases h : st.contains n
      · rw [if_pos h]
        exact keyPairsFold_preserves l st n (List.mem_of_elem_eq_true h)
      · rw [if_neg h]
        exact keyPairsFold_preserves l (st ++ [n]) n
          (List.mem_append_right _ (List.mem_singleton_self _))
    · by_cases h : st.contains a
      · rw [if_pos h]; exact ih st n hn
      · rw [if_neg h]; exact ih (st ++ [a]) n hn

/-- C9 (confirmed): `key_pairs` appends `'default'` to the caller's
configuration list in place (the returned configuration list is the
original with `"default"` appended) and afterwards every name of that
appended list - in particular `"default"`, even when the configuration
listed no key pairs - has an existing key pair. -/
theorem key_pairs_default (cfg existing : List String) :
    (key_pairs cfg existing).1 = cfg ++ ["default"] ∧
    ∀ n ∈ cfg ++ ["default"], n ∈ (key_pairs cfg existing).2 := by
  refine ⟨rfl, ?_⟩
  intro n hn
  exact keyPairsFold_mem (cfg ++ ["default"]) existing n hn

/-- C9 witness: an empty configuration still yields a `default` key pair. -/
theorem key_pairs_default_witness :
    (key_pairs [] []).1 = [] ++ ["default"] ∧
    "default" ∈ ([] ++ ["default"] : List String) ∧
    "default" ∈ (key_pairs [] []).2 :=
  ⟨(key_pairs_default [] []).1, by decide,
   (key_pairs_default [] []).2 "default" (by decide)⟩

/-! ## Claim C10: `tag_instances` naming and volume tagging -/

/-- C10 (confirmed): every instance handed to `tag_instances` receives a
`Name` tag `<vpc>-<role>-<suffix>` and a `role` tag equal to the role
name, and every attached volume receives the same `Name` tag, where
`suffix` strips ALL leading characters in the set `{'i', '-'}` from the
instance id (`str.lstrip('i-')`), not just a literal `i-` prefix. -/
theorem tag_instances_tags (vpc role : String) (insts : List InstanceInfo)
    (inst : InstanceInfo) (hmem : inst ∈ insts) :
    Event.tagInstance inst.iid (vpc ++ "-" ++ role ++ "-" ++ stripId inst.iid) role
      ∈ tag_instances vpc role insts ∧
    ∀ v ∈ inst.volumes,
      Event.tagVolume v (vpc ++ "-" ++ role ++ "-" ++ stripId inst.iid)
        ∈ tag_instances vpc role insts := by
  induction insts with
  | nil => cases hmem
  | cons i rest ih =>
    rcases List.mem_cons.mp hmem with rfl | hmem
    · constructor
      · simp [tag_instances]
      · intro v hv
        simp only [tag_instances, List.mem_append, List.mem_cons]
        exact Or.inl (Or.inr (List.mem_map_of_mem _ hv))
    · rcases ih hmem with ⟨h1, h2⟩
      constructor
      · simp only [tag_instances, List.mem_append]
        exact Or.inr h1
      · intro v hv
        simp only [tag_instances, List.mem_append]
        exact Or.inr (h2 v hv)

/-- C10 witness: id `i-i-0aff` - the charset lstrip removes the whole
leading `i-i-` run (plain prefix removal would leave `i-0aff`), so the
name tag is `v-web-0aff`, on the instance and on its volume. -/
theorem tag_instances_tags_witness :
    (⟨"i-i-0aff", ["vol-1"]⟩ : InstanceInfo) ∈ ([⟨"i-i-0aff", ["vol-1"]⟩] : List InstanceInfo) ∧
    Event.tagInstance "i-i-0aff" "v-web-0aff" "web"
      ∈ tag_instances "v" "web" [⟨"i-i-0aff", ["vol-1"]⟩] ∧
    Event.tagVolume "vol-1" "v-web-0aff"
      ∈ tag_instances "v" "web" [⟨"i-i-0aff", ["vol-1"]⟩] := by
  have h := tag_instances_tags "v" "web" [⟨"i-i-0aff", ["vol-1"]⟩] ⟨"i-i-0aff", ["vol-1"]⟩
    (by decide)
  exact ⟨by decide, by simpa using h.1, by simpa using h.2 "vol-1" (by decide)⟩

/-! ## Claims C7 and C8: the `apply_all` pipeline -/

/-- Running a stage prefix that fully succeeds and then hits a failing
stage yields exactly that trace and the error. -/
theorem runSeq_fail (env : Stage → Except PyErr Unit) (e : PyErr) (s : Stage) :
    ∀ (pre post : List Stage), (∀ t ∈ pre, env t = .ok ()) → env s = .error e →
      runSeq env (pre ++ s :: post) = (pre ++ [s], .error e) := by
  intro pre
  induction pre with
  | nil =>
    intro post _ hs
    simp [runSeq, hs]
  | cons t pre ih =>
    intro post hpre hs
    have ht : env t = .ok () := hpre t (List.mem_cons_self _ _)
    have hrec := ih post (fun u hu => hpre u (List.mem_cons_of_mem _ hu)) hs
    simp only [List.cons_append, runSeq, ht]
    have happ : pre.append (s :: post) = pre ++ s :: post := rfl
    rw [happ, hrec]

/-- When every stage succeeds, `runSeq` runs them all. -/
theorem runSeq_all_ok (env : Stage → Except PyErr Unit) :
    ∀ stages : List Stage, (∀ s ∈ stages, env s = .ok ()) →
      runSeq env stages = (stages, .ok ()) := by
  intro stages
  induction stages with
  | nil => intro _; rfl
  | cons s rest ih =>
    intro h
    have hs : env s = .ok () := h s (List.mem_cons_self _ _)
    simp only [runSeq, hs]
    rw [ih (fun u hu => h u (List.mem_cons_of_mem _ hu))]

/-- The trace of `runSeq` is always an initial segment of the stage
list. -/
theorem runSeq_take (env : Stage → Except PyErr Unit) :
    ∀ stages : List Stage, ∃ n, n ≤ stages.length ∧
      (runSeq env stages).1 = stages.take n := by
  intro stages
  induction stages with
  | nil => exact ⟨0, Nat.le_refl 0, rfl⟩
  | cons s rest ih =>
    match henv : env s with
    | .error e => exact ⟨1, by simp, by simp [runSeq, henv]⟩
    | .ok _ =>
      rcases ih with ⟨n, hn, htr⟩
      exact ⟨n + 1, by simp [Nat.succ_le_succ hn], by simp [runSeq, henv, htr]⟩

/-- C7, counterexample: an exception raised in the instance-locking
pipeline stage is swallowed by the bare `except:` of lines 72-76: the
build logs a warning, reports no failure, and returns success instead of
re-raising, contradicting "for EVERY exception raised in any pipeline
stage ... the exception is re-raised to the caller". -/
theorem C7_counterexample :
    envLockFails Stage.lockInstances = .error .providerFailure ∧
    apply_all envLockFails
      = { trace := pipelineOrder, logs := ["could not lock instances, continuing"],
          terminated := false, result := .ok () } :=
  ⟨by decide, by decide⟩

/-- C7 (corrected): for every exception raised in a pipeline stage other
than the best-effort instance-lock stage - i.e. a first failure at a main
stage `s` - the remaining stages are not executed, `apply_all` logs the
failure banner, the reason and the debug traceback, performs no teardown
(line 44 is commented out), and re-raises the exception. -/
theorem apply_all_abort (env : Stage → Except PyErr Unit) (e : PyErr) (s : Stage)
    (pre post : List Stage)
    (hsplit : mainStages = pre ++ s :: post)
    (hpre : ∀ t ∈ pre, env t = .ok ())
    (hs : env s = .error e) :
    apply_all env = { trace := pre ++ [s], logs := failLogs,
                      terminated := false, result := .error e } ∧
    ∀ t ∈ post, t ∉ pre ++ [s] := by
  have hrun : runSeq env mainStages = (pre ++ [s], .error e) := by
    rw [hsplit]
    exact runSeq_fail env e s pre post hpre hs
  constructor
  · simp [apply_all, hrun, failLogs]
  · have hnodup : (pre ++ s :: post).Nodup := by
      rw [← hsplit]; decide
    rcases List.nodup_append.mp hnodup with ⟨_, hnd2, hdisj⟩
    intro t ht
    rw [List.mem_append]
    rintro (htp | hts)
    · exact hdisj htp (List.mem_cons_of_mem _ ht)
    · rw [List.mem_singleton] at hts
      exact (List.nodup_cons.mp hnd2).1 (hts ▸ ht)

/-- C7 witness: a failure in the subnet stage stops the pipeline after
route tables and subnets, reports, does not tear down, and re-raises. -/
theorem apply_all_abort_witness :
    mainStages = [Stage.routeTables] ++ Stage.subnetsStage ::
      [Stage.associations, Stage.endpoints, Stage.keyPairsStage, Stage.securityGroups,
       Stage.instanceRolesStage, Stage.securityGroupRules, Stage.waitRunning] ∧
    (∀ t ∈ [Stage.routeTables], envSubnetFails t = .ok ()) ∧
    envSubnetFails Stage.subnetsStage = .error .providerFailure ∧
    (apply_all envSubnetFails
      = { trace := [Stage.routeTables] ++ [Stage.subnetsStage], logs := failLogs,
          terminated := false, result := .error .providerFailure } ∧
     ∀ t ∈ [Stage.associations, Stage.endpoints, Stage.keyPairsStage, Stage.securityGroups,
            Stage.instanceRolesStage, Stage.securityGroupRules, Stage.waitRunning],
       t ∉ [Stage.routeTables] ++ [Stage.subnetsStage]) :=
  ⟨by decide, by decide, by decide,
   apply_all_abort envSubnetFails .providerFailure Stage.subnetsStage
     [Stage.routeTables]
     [Stage.associations, Stage.endpoints, Stage.keyPairsStage, Stage.securityGroups,
      Stage.instanceRolesStage, Stage.securityGroupRules, Stage.waitRunning]
     (by decide) (by decide) (by decide)⟩

/-- Every initial segment of the pipeline order satisfies the ordering
facts. -/
theorem pipeline_take_ok : ∀ n, n < 11 → stageOrderOk (pipelineOrder.take n) := by
  decide

/-- A run that ends in success has executed every stage of the list. -/
theorem runSeq_ok_trace (env : Stage → Except PyErr Unit) :
    ∀ (stages tr : List Stage), runSeq env stages = (tr, .ok ()) → tr = stages := by
  intro stages
  induction stages with
  | nil =>
    intro tr h
    have := congrArg Prod.fst h
    simpa [runSeq] using this.symm
  | cons s rest ih =>
    intro tr h
    simp only [runSeq] at h
    match henv : env s with
    | .error e =>
      rw [henv] at h
      have := congrArg Prod.snd h
      simp at this
    | .ok u =>
      cases u
      rw [henv] at h
      have h2 : (runSeq env rest).2 = .ok () := by
        have := congrArg Prod.snd h
        simpa using this
      have h1 : s :: (runSeq env rest).1 = tr := by
        have := congrArg Prod.fst h
        simpa using this
      have heq : runSeq env rest = ((runSeq env rest).1, Except.ok ()) := by
        rw [← h2]
      rw [← h1, ih (runSeq env rest).1 heq]

/-- The executed trace of `apply_all` is an initial segment (of length at
most 10) of the pipeline order. -/
theorem apply_all_trace_take (env : Stage → Except PyErr Unit) :
    ∃ n, n < 11 ∧ (apply_all env).trace = pipelineOrder.take n := by
  rcases runSeq_take env mainStages with ⟨n, hn, htr⟩
  have hlen9 : mainStages.length = 9 := by decide
  match hrun : runSeq env mainStages with
  | (tr, .error e) =>
    refine ⟨n, by omega, ?_⟩
    rw [hrun] at htr
    simp only at htr
    simp only [apply_all, hrun]
    rw [htr, pipelineOrder, List.take_append_of_le_length hn]
  | (tr, .ok u) =>
    cases u
    have htr2 : tr = mainStages := runSeq_ok_trace env mainStages tr hrun
    refine ⟨10, by omega, ?_⟩
    simp only [apply_all, hrun]
    rw [htr2]
    have h10 : pipelineOrder.take 10 = pipelineOrder := by decide
    rw [h10, pipelineOrder]

/-- C8 (confirmed): in every build invocation the executed pipeline
stages form an initial segment of the fixed order route tables, subnets,
associations, endpoints, key pairs, security groups, instance roles,
security-group rules, wait-for-running, instance locking; when no main
stage fails the full order executes; in particular security-group rules
never run before the security-group stage and subnet associations never
run before the subnet stage. -/
theorem apply_all_stage_order (env : Stage → Except PyErr Unit) :
    (∃ n, (apply_all env).trace = pipelineOrder.take n) ∧
    ((∀ s ∈ mainStages, env s = .ok ()) → (apply_all env).trace = pipelineOrder) ∧
    stageOrderOk (apply_all env).trace := by
  rcases apply_all_trace_take env with ⟨n, hn, htr⟩
  refine ⟨⟨n, htr⟩, ?_, ?_⟩
  · intro hok
    have hrun := runSeq_all_ok env mainStages hok
    simp only [apply_all, hrun]
    rfl
  · rw [htr]
    exact pipeline_take_ok n hn

/-- C8 witness: with every collaborator call succeeding, the full fixed
order executes and the ordering facts hold. -/
theorem apply_all_stage_order_witness :
    (∀ s ∈ mainStages, (fun _ : Stage => (Except.ok () : Except PyErr Unit)) s = .ok ()) ∧
    (apply_all (fun _ => .ok ())).trace = pipelineOrder ∧
    stageOrderOk (apply_all (fun _ => .ok ())).trace :=
  ⟨by decide,
   (apply_all_stage_order (fun _ => .ok ())).2.1 (by decide),
   (apply_all_stage_order (fun _ => .ok ())).2.2⟩

/-! ## Helper lemmas for the allocator (claim C5) -/

theorem enumerate_length : ∀ (l : List Nat) (k : Nat), (enumerate k l).length = l.length := by
  intro l
  induction l with
  | nil => intro k; rfl
  | cons s ss ih => intro k; simp [enumerate, ih]

theorem enumerate_map_snd : ∀ (l : List Nat) (k : Nat),
    (enumerate k l).map (fun p => p.2) = l := by
  intro l
  induction l with
  | nil => intro k; rfl
  | cons s ss ih => intro k; simp [enumerate, ih]

theorem mem_enumerate : ∀ (l : List Nat) (k : Nat) (q : Nat × Nat), q ∈ enumerate k l →
    ∃ p, p < l.length ∧ q.1 = k + p ∧ l.getD p 0 = q.2 := by
  intro l
  induction l with
  | nil => intro k q h; cases h
  | cons s ss ih =>
    intro k q h
    rcases List.mem_cons.mp h with rfl | h
    · exact ⟨0, Nat.succ_pos _, by simp, rfl⟩
    · rcases ih (k + 1) q h with ⟨p, hp, hk, hg⟩
      exact ⟨p + 1, Nat.succ_lt_succ hp, by omega, by simpa using hg⟩

theorem enumerate_mem : ∀ (l : List Nat) (k p : Nat), p < l.length →
    (k + p, l.getD p 0) ∈ enumerate k l := by
  intro l
  induction l with
  | nil => intro k p h; exact absurd h (Nat.not_lt_zero _)
  | cons s ss ih =>
    intro k p h
    cases p with
    | zero => simp [enumerate]
    | succ p =>
      have hmem := ih (k + 1) p (Nat.lt_of_succ_lt_succ h)
      simp only [enumerate, List.getD_cons_succ]
      have hx : k + (p + 1) = k + 1 + p := by omega
      rw [hx]
      exact List.mem_cons_of_mem _ hmem

theorem enumerate_getD : ∀ (l : List Nat) (k p : Nat), p < l.length →
    (enumerate k l).getD p (0, 0) = (k + p, l.getD p 0) := by
  intro l
  induction l with
  | nil => intro k p h; exact absurd h (Nat.not_lt_zero _)
  | cons s ss ih =>
    intro k p h
    cases p with
    | zero => simp [enumerate]
    | succ p =>
      simp only [enumerate, List.getD_cons_succ]
      rw [ih (k + 1) p (Nat.lt_of_succ_lt_succ h)]
      have hx : k + 1 + p = k + (p + 1) := by omega
      rw [hx]

theorem insDesc_perm (p : Nat × Nat) : ∀ l, (insDesc p l).Perm (p :: l) := by
  intro l
  induction l with
  | nil => exact List.Perm.refl _
  | cons q qs ih =>
    simp only [insDesc]
    by_cases h : p.2 < q.2
    · rw [if_pos h]
      exact (ih.cons q).trans (List.Perm.swap p q qs)
    · rw [if_neg h]

theorem sortSizesDesc_perm : ∀ l, (sortSizesDesc l).Perm l := by
  intro l
  induction l with
  | nil => exact List.Perm.refl _
  | cons p ps ih => exact (insDesc_perm p (sortSizesDesc ps)).trans (ih.cons p)

theorem insDesc_sorted (p : Nat × Nat) :
    ∀ l, List.Pairwise (fun a b : Nat × Nat => b.2 ≤ a.2) l →
      List.Pairwise (fun a b : Nat × Nat => b.2 ≤ a.2) (insDesc p l) := by
  intro l
  induction l with
  | nil => intro _; simp [insDesc]
  | cons q qs ih =>
    intro hsort
    rcases List.pairwise_cons.mp hsort with ⟨hq, hqs⟩
    simp only [insDesc]
    by_cases h : p.2 < q.2
    · rw [if_pos h]
      apply List.pairwise_cons.mpr
      refine ⟨?_, ih hqs⟩
      intro x hx
      rcases List.mem_cons.mp ((insDesc_perm p qs).mem_iff.mp hx) with rfl | hxq
      · exact Nat.le_of_lt h
      · exact hq x hxq
    · rw [if_neg h]
      apply List.pairwise_cons.mpr
      refine ⟨?_, hsort⟩
      intro x hx
      rcases List.mem_cons.mp hx with rfl | hxq
      · exact Nat.le_of_not_lt h
      · exact Nat.le_trans (hq x hxq) (Nat.le_of_not_lt h)

theorem sortSizesDesc_sorted :
    ∀ l, List.Pairwise (fun a b : Nat × Nat => b.2 ≤ a.2) (sortSizesDesc l) := by
  intro l
  induction l with
  | nil => exact List.Pairwise.nil
  | cons p ps ih => exact insDesc_sorted p (sortSizesDesc ps) ih

theorem align_of_dvd (c s : Nat) (hs : 0 < s) (hdvd : s ∣ c) : align c s = c := by
  rcases hdvd with ⟨q, rfl⟩
  unfold align
  have h1 : s * q + s - 1 = s * q + (s - 1) := by omega
  rw [h1, Nat.mul_add_div hs, Nat.div_eq_of_lt (by omega)]
  ring

theorem pow2_dvd_of_le {a b : Nat} (h : 2 ^ a ≤ 2 ^ b) : (2 ^ a : Nat) ∣ 2 ^ b :=
  pow_dvd_pow 2 ((Nat.pow_le_pow_iff_right (by norm_num)).mp h)

theorem consecutive_map : ∀ (l : List (Nat × Nat)) (c : Nat),
    (consecutive c l).map (fun q => (q.1, q.2.size)) = l := by
  intro l
  induction l with
  | nil => intro c; rfl
  | cons p ps ih =>
    intro c
    obtain ⟨i, s⟩ := p
    simp [consecutive, ih]

theorem consecutive_bounds : ∀ (l : List (Nat × Nat)) (c : Nat) (q : Nat × AddressBlock),
    q ∈ consecutive c l →
    c ≤ q.2.base ∧ q.2.base + q.2.size ≤ c + (l.map (fun p => p.2)).sum := by
  intro l
  induction l with
  | nil => intro c q h; cases h
  | cons p ps ih =>
    intro c q h
    obtain ⟨i, s⟩ := p
    simp only [consecutive] at h
    rcases List.mem_cons.mp h with rfl | h
    · refine ⟨Nat.le_refl c, ?_⟩
      simp only [List.map_cons, List.sum_cons]
      omega
    · rcases ih (c + s) q h with ⟨h1, h2⟩
      refine ⟨by omega, ?_⟩
      simp only [List.map_cons, List.sum_cons] at h2 ⊢
      omega

theorem consecutive_pairwise : ∀ (l : List (Nat × Nat)) (c : Nat),
    List.Pairwise (fun a b : Nat × AddressBlock => a.2.base + a.2.size ≤ b.2.base)
      (consecutive c l) := by
  intro l
  induction l with
  | nil => intro c; exact List.Pairwise.nil
  | cons p ps ih =>
    intro c
    obtain ⟨i, s⟩ := p
    simp only [consecutive]
    apply List.pairwise_cons.mpr
    refine ⟨?_, ih (c + s)⟩
    intro x hx
    exact (consecutive_bounds ps (c + s) x hx).1

theorem assignBlocks_ok : ∀ (l : List (Nat × Nat)) (cursor pend : Nat),
    (∀ q ∈ l, ∃ k, q.2 = 2 ^ k) →
    List.Pairwise (fun a b : Nat × Nat => b.2 ≤ a.2) l →
    (∀ q ∈ l, q.2 ∣ cursor) →
    cursor + (l.map (fun p => p.2)).sum ≤ pend →
    assignBlocks pend cursor l = .ok (consecutive cursor l) := by
  intro l
  induction l with
  | nil => intro cursor pend _ _ _ _; rfl
  | cons p ps ih =>
    intro cursor pend hpow hsort hdvd hsum
    obtain ⟨i, s⟩ := p
    have hs0 : 0 < s := by
      rcases hpow (i, s) (List.mem_cons_self _ _) with ⟨k, hk⟩
      have hk' : s = 2 ^ k := hk
      rw [hk']
      exact pow_pos (by norm_num) k
    have hdc : s ∣ cursor := hdvd (i, s) (List.mem_cons_self _ _)
    have halign : align cursor s = cursor := align_of_dvd cursor s hs0 hdc
    simp only [assignBlocks, halign]
    have hbound : ¬ pend < cursor + s := by
      simp only [List.map_cons, List.sum_cons] at hsum
      omega
    rw [if_neg hbound]
    have hrec : assignBlocks pend (cursor + s) ps = .ok (consecutive (cursor + s) ps) := by
      apply ih
      · exact fun q hq => hpow q (List.mem_cons_of_mem _ hq)
      · exact (List.pairwise_cons.mp hsort).2
      · intro q hq
        have h1 : q.2 ∣ cursor := hdvd q (List.mem_cons_of_mem _ hq)
        have h2 : q.2 ≤ s := (List.pairwise_cons.mp hsort).1 q hq
        have h3 : q.2 ∣ s := by
          rcases hpow q (List.mem_cons_of_mem _ hq) with ⟨a, ha⟩
          rcases hpow (i, s) (List.mem_cons_self _ _) with ⟨b, hb⟩
          have hb' : s = 2 ^ b := hb
          rw [ha, hb'] at h2 ⊢
          exact pow2_dvd_of_le h2
        exact Nat.dvd_add h1 h3
      · simp only [List.map_cons, List.sum_cons] at hsum
        omega
    rw [hrec]
    rfl

theorem getD_map_of_lt {α β : Type} (f : α → β) (l : List α) (p : Nat) (d : β) (e : α)
    (hp : p < l.length) : (l.map f).getD p d = f (l.getD p e) := by
  have hp' : p < (l.map f).length := by rw [List.length_map]; exact hp
  rw [List.getD_eq_getElem _ _ hp', List.getD_eq_getElem _ _ hp, List.getElem_map]

theorem allocate_eq (parent : AddressBlock) (sizes : List Nat)
    (hsum : sizes.sum ≤ parent.size)
    (hassign : assignBlocks (parent.base + parent.size) parent.base
      (sortSizesDesc (enumerate 0 sizes)) = .ok (allocAssigned parent sizes)) :
    allocate parent sizes = .ok (allocOut parent sizes) := by
  unfold allocate
  rw [if_neg (Nat.not_lt.mpr hsum), hassign]
  rfl

/-- Looking an original request position up among the assigned blocks
always succeeds, and the found block has exactly the requested size. -/
theorem allocAssigned_key (parent : AddressBlock) (sizes : List Nat) (p : Nat)
    (hp : p < sizes.length) :
    ∃ b, (allocAssigned parent sizes).find? (fun q => q.1 == p) = some (p, b) ∧
      (p, b) ∈ allocAssigned parent sizes ∧ b.size = sizes.getD p 0 := by
  have hperm := sortSizesDesc_perm (enumerate 0 sizes)
  have h1 : ((p : Nat), sizes.getD p 0) ∈ enumerate 0 sizes := by
    have := enumerate_mem sizes 0 p hp
    simpa using this
  have h2 : (p, sizes.getD p 0) ∈ sortSizesDesc (enumerate 0 sizes) := hperm.mem_iff.mpr h1
  have h3 := consecutive_map (sortSizesDesc (enumerate 0 sizes)) parent.base
  have h4 : (p, sizes.getD p 0) ∈ (allocAssigned parent sizes).map (fun q => (q.1, q.2.size)) := by
    unfold allocAssigned
    rw [h3]
    exact h2
  rcases List.mem_map.mp h4 with ⟨q, hqmem, hqeq⟩
  have hq1 : q.1 = p := congrArg Prod.fst hqeq
  have hsome : ((allocAssigned parent sizes).find? (fun r => r.1 == p)).isSome := by
    rw [List.find?_isSome]
    refine ⟨q, hqmem, ?_⟩
    rw [hq1]
    simp
  cases hfind : (allocAssigned parent sizes).find? (fun r => r.1 == p) with
  | none => rw [hfind] at hsome; simp at hsome
  | some r =>
    obtain ⟨r1, r2⟩ := r
    have hr1 : r1 = p := by
      have := List.find?_some hfind
      simpa using this
    subst hr1
    have hrmem := List.mem_of_find?_eq_some hfind
    have h5 : (r1, r2.size) ∈ sortSizesDesc (enumerate 0 sizes) := by
      have hmm := List.mem_map_of_mem (fun q => (q.1, q.2.size)) hrmem
      unfold allocAssigned at hmm
      rwa [h3] at hmm
    have h6 : (r1, r2.size) ∈ enumerate 0 sizes := hperm.mem_iff.mp h5
    rcases mem_enumerate sizes 0 _ h6 with ⟨pz, _, hk, hg⟩
    have hpzp : pz = r1 := by simpa using hk.symm
    have hg' : sizes.getD pz 0 = r2.size := hg
    rw [hpzp] at hg'
    exact ⟨r2, rfl, hrmem, hg'.symm⟩

/-- Positional form of the lookup that builds `allocOut`. -/
theorem allocOut_getD (parent : AddressBlock) (sizes : List Nat) (p : Nat)
    (hp : p < sizes.length) :
    (allocOut parent sizes).getD p default =
      (((allocAssigned parent sizes).find? (fun q => q.1 == p)).map (fun q => q.2)).getD default := by
  have hp2 : p < (enumerate 0 sizes).length := by
    rw [enumerate_length]
    exact hp
  unfold allocOut
  rw [getD_map_of_lt _ _ p default (0, 0) hp2, enumerate_getD sizes 0 p hp]
  simp

/-- C5 (confirmed, spec-modelled): for a power-of-two-sized, self-aligned
parent block and power-of-two size requests whose total fits in the
parent, `allocate` succeeds and returns exactly one block per request, in
original request order (the block at position `p` has exactly size
`sizes[p]`), pairwise disjoint and all contained in the parent. -/
theorem allocate_spec (parent : AddressBlock) (sizes : List Nat)
    (hps : ∃ pp, parent.size = 2 ^ pp)
    (hbase : parent.size ∣ parent.base)
    (hsz : ∀ s ∈ sizes, ∃ k, s = 2 ^ k)
    (hsum : sizes.sum ≤ parent.size) :
    C5Statement parent sizes := by
  have hperm := sortSizesDesc_perm (enumerate 0 sizes)
  have hEmap := enumerate_map_snd sizes 0
  have hmemsizes : ∀ q ∈ sortSizesDesc (enumerate 0 sizes), q.2 ∈ sizes := by
    intro q hq
    have h1 : q.2 ∈ (enumerate 0 sizes).map (fun p => p.2) :=
      List.mem_map_of_mem _ (hperm.mem_iff.mp hq)
    rwa [hEmap] at h1
  have hSpow : ∀ q ∈ sortSizesDesc (enumerate 0 sizes), ∃ k, q.2 = 2 ^ k :=
    fun q hq => hsz q.2 (hmemsizes q hq)
  have hSsum : ((sortSizesDesc (enumerate 0 sizes)).map (fun p => p.2)).sum = sizes.sum := by
    have h := (hperm.map (fun p => p.2)).sum_eq
    rwa [hEmap] at h
  have hSdvd : ∀ q ∈ sortSizesDesc (enumerate 0 sizes), q.2 ∣ parent.base := by
    intro q hq
    rcases hps with ⟨pp, hpp⟩
    rcases hSpow q hq with ⟨k, hk⟩
    have hle : q.2 ≤ parent.size := by
      have h1 : q.2 ≤ sizes.sum :=
        List.single_le_sum (fun x _ => Nat.zero_le x) q.2 (hmemsizes q hq)
      omega
    have h2 : q.2 ∣ parent.size := by
      rw [hk, hpp]
      apply pow2_dvd_of_le
      rw [← hk, ← hpp]
      exact hle
    exact dvd_trans h2 hbase
  have hassign : assignBlocks (parent.base + parent.size) parent.base
      (sortSizesDesc (enumerate 0 sizes)) = .ok (allocAssigned parent sizes) := by
    unfold allocAssigned
    apply assignBlocks_ok _ _ _ hSpow (sortSizesDesc_sorted _) hSdvd
    rw [hSsum]
    omega
  have halloc := allocate_eq parent sizes hsum hassign
  refine ⟨allocOut parent sizes, halloc, ?_, ?_, ?_, ?_⟩
  · unfold allocOut
    rw [List.length_map, enumerate_length]
  · intro p hp
    rcases allocAssigned_key parent sizes p hp with ⟨b, hfind, _, hsize⟩
    rw [allocOut_getD parent sizes p hp, hfind]
    simpa using hsize
  · intro p q hp hq hpq
    rcases allocAssigned_key parent sizes p hp with ⟨bp, hfp, hmp, _⟩
    rcases allocAssigned_key parent sizes q hq with ⟨bq, hfq, hmq, _⟩
    rw [allocOut_getD parent sizes p hp, hfp, allocOut_getD parent sizes q hq, hfq]
    have hpw : List.Pairwise (fun a b : Nat × AddressBlock => blocksDisjoint a.2 b.2)
        (allocAssigned parent sizes) := by
      unfold allocAssigned
      exact (consecutive_pairwise _ _).imp (fun h => Or.inl h)
    have hsymm : Symmetric (fun a b : Nat × AddressBlock => blocksDisjoint a.2 b.2) :=
      fun a b h => Or.symm h
    have hne : ((p, bp) : Nat × AddressBlock) ≠ (q, bq) :=
      fun hc => hpq (congrArg Prod.fst hc)
    have hdisj := List.Pairwise.forall hsymm hpw hmp hmq hne
    simpa using hdisj
  · intro b hb
    unfold allocOut at hb
    rcases List.mem_map.mp hb with ⟨pr, hprE, hfb⟩
    rcases mem_enumerate sizes 0 pr hprE with ⟨pz, hpz, hk, _⟩
    have hprlt : pr.1 < sizes.length := by omega
    rcases allocAssigned_key parent sizes pr.1 hprlt with ⟨bb, hfind, hmem, _⟩
    have hb2 : b = bb := by
      rw [← hfb, hfind]
      simp
    have hmem2 : ((pr.1, bb) : Nat × AddressBlock) ∈
        consecutive parent.base (sortSizesDesc (enumerate 0 sizes)) := by
      unfold allocAssigned at hmem
      exact hmem
    have hbounds := consecutive_bounds (sortSizesDesc (enumerate 0 sizes)) parent.base
      (pr.1, bb) hmem2
    rw [hSsum] at hbounds
    refine ⟨?_, ?_⟩
    · rw [hb2]
      exact hbounds.1
    · rw [hb2]
      exact Nat.le_trans hbounds.2 (Nat.add_le_add_left hsum _)

/-- C5 witness: the spec's concrete scenario - a 256-address parent and
requests [64, 64, 32, 32, 32, 32]. -/
theorem allocate_spec_witness :
    (∃ pp, (⟨0, 256⟩ : AddressBlock).size = 2 ^ pp) ∧
    ((⟨0, 256⟩ : AddressBlock).size ∣ (⟨0, 256⟩ : AddressBlock).base) ∧
    (∀ s ∈ ([64, 64, 32, 32, 32, 32] : List Nat), ∃ k, s = 2 ^ k) ∧
    ([64, 64, 32, 32, 32, 32] : List Nat).sum ≤ (⟨0, 256⟩ : AddressBlock).size ∧
    C5Statement ⟨0, 256⟩ [64, 64, 32, 32, 32, 32] :=
  ⟨⟨8, rfl⟩, dvd_zero 256,
   by intro s hs; fin_cases hs <;> first | exact ⟨6, rfl⟩ | exact ⟨5, rfl⟩,
   by decide,
   allocate_spec ⟨0, 256⟩ [64, 64, 32, 32, 32, 32] ⟨8, rfl⟩ (dvd_zero 256)
     (by intro s hs; fin_cases hs <;> first | exact ⟨6, rfl⟩ | exact ⟨5, rfl⟩)
     (by decide)⟩

end Botoform
